import Mathlib

/-!
Shallow embedding of the sol-trader paper-trading engine.

The repository has two variants of the engine:

* the autonomous bot (`src/unnamed/part_000`, component `TradingBot`):
  RSI indicator, signal classifier, signal-driven position opening,
  per-tick stop-loss / take-profit / sell-signal exits (`Auto` namespace);
* the manual simulator (`src/app/page.tsx`, component `Home`):
  user-triggered opens, per-tick stop-loss / take-profit exits, manual
  close with an entry-price fallback for missing quotes (`Manual`
  namespace).

Prices and money are embedded as rationals (`ℚ`); JavaScript numbers are
IEEE doubles, but every claim under study is about the exact arithmetic
the code writes down, so the field structure of `ℚ` is the faithful
idealisation.  Timestamps (`Date.now()`, `openedAt`, `closedAt`) carry no
program logic beyond identity of positions, so identities are embedded as
an explicit `ℕ` parameter threaded to the open operations and the date
fields are dropped.  React `setX(prev => ...)` functional updates within
one tick apply sequentially, which the state-passing style below mirrors;
plain reads of `positions` and `balance` inside one tick, however, see
the render-scope values captured when the tick began, not the
accumulated updates — `processSignals` below reproduces exactly that:
its guards and sizing read the call-entry state while its writes
accumulate through the fold.
-/

namespace SolTrader

/-- Trade signal, the `'BUY' | 'SELL' | 'HOLD'` union in the source. -/
inductive Signal where
  | BUY
  | SELL
  | HOLD
deriving DecidableEq, Repr

namespace Auto

/-- Embeds `CONFIG.INITIAL_BALANCE` in `src/unnamed/part_000`. -/
def INITIAL_BALANCE : ℚ := 1000

/-- Embeds `CONFIG.POSITION_SIZE` (15% per trade). -/
def POSITION_SIZE : ℚ := 15 / 100

/-- Embeds `CONFIG.MAX_POSITIONS`. -/
def MAX_POSITIONS : ℕ := 4

/-- Embeds `CONFIG.STOP_LOSS` (3%). -/
def STOP_LOSS : ℚ := 3 / 100

/-- Embeds `CONFIG.TAKE_PROFIT` (8%). -/
def TAKE_PROFIT : ℚ := 8 / 100

/-- Embeds `CONFIG.RSI_BUY` threshold (35). -/
def RSI_BUY : ℚ := 35

/-- Embeds `CONFIG.RSI_SELL` threshold (70). -/
def RSI_SELL : ℚ := 70

/-- Embeds `CONFIG.MIN_CHANGE_BUY` threshold (−3). -/
def MIN_CHANGE_BUY : ℚ := -3

/-- The body of the `calculateRSI` loop on the `(gains, losses)`
accumulator pair: `if (change > 0) gains += change; else losses -= change`. -/
def glStep (gl : ℚ × ℚ) (change : ℚ) : ℚ × ℚ :=
  if 0 < change then (gl.1 + change, gl.2) else (gl.1, gl.2 - change)

/-- The accumulation loop of `calculateRSI`:
`for (let i = prices.length - period; i < prices.length; i++)` with
accumulators `gains` and `losses`; `prices[i]` is embedded as `getD i 0`
(the loop only runs when every index it touches is in bounds). -/
def rsiLoop (prices : List ℚ) (period : ℕ) : ℚ × ℚ :=
  (List.range period).foldl
    (fun gl j =>
      let i := prices.length - period + j
      glStep gl (prices.getD i 0 - prices.getD (i - 1) 0))
    (0, 0)

/-- Embeds `calculateRSI` from `src/unnamed/part_000`: neutral 50 below
`period + 1` observations, else the simple-average RSI over the trailing
`period` deltas, with 100 returned when the average loss is zero. -/
def calculateRSI (prices : List ℚ) (period : ℕ := 14) : ℚ :=
  if prices.length < period + 1 then 50
  else
    let gains := (rsiLoop prices period).1
    let losses := (rsiLoop prices period).2
    let avgGain := gains / period
    let avgLoss := losses / period
    if avgLoss = 0 then 100
    else
      let rs := avgGain / avgLoss
      100 - 100 / (1 + rs)

/-- Embeds `getSignal` from `src/unnamed/part_000`. -/
def getSignal (rsi change24h : ℚ) : Signal :=
  if rsi < RSI_BUY ∧ change24h < MIN_CHANGE_BUY then Signal.BUY
  else if RSI_SELL < rsi then Signal.SELL
  else Signal.HOLD

/-- One entry of the per-tick token snapshot (the `Token` interface,
minus the display-only `name`/`prevPrice` fields). -/
structure Token where
  symbol : String
  price : ℚ
  change24h : ℚ
  rsi : ℚ
  signal : Signal
deriving DecidableEq, Repr

/-- The `Position` interface (dates dropped, identity kept as `ℕ`). -/
structure Position where
  id : ℕ
  symbol : String
  entryPrice : ℚ
  currentPrice : ℚ
  quantity : ℚ
  valueEUR : ℚ
  pnl : ℚ
  pnlPercent : ℚ
  stopLoss : ℚ
  takeProfit : ℚ
deriving DecidableEq, Repr

/-- Close reason, the `'TP' | 'SL' | 'SIGNAL'` union. -/
inductive Reason where
  | TP
  | SL
  | SIGNAL
deriving DecidableEq, Repr

/-- Win/loss classification, the `'WIN' | 'LOSS'` union. -/
inductive TradeResult where
  | WIN
  | LOSS
deriving DecidableEq, Repr

/-- The `Trade` interface (dates dropped). -/
structure Trade where
  id : ℕ
  symbol : String
  entryPrice : ℚ
  exitPrice : ℚ
  quantity : ℚ
  pnl : ℚ
  pnlPercent : ℚ
  result : TradeResult
  reason : Reason
deriving DecidableEq, Repr

/-- The ledger-relevant component state: `balance`, `positions`,
`trades` (logs and token display state carry no engine logic). -/
structure BotState where
  balance : ℚ
  positions : List Position
  trades : List Trade
deriving DecidableEq, Repr

/-- The initial component state. -/
def initState : BotState :=
  { balance := INITIAL_BALANCE, positions := [], trades := [] }

/-- Embeds `closeTrade` from `src/unnamed/part_000`: records the trade at the
front of the history and credits the balance with
`pos.valueEUR + pnl`.  It does not itself remove the position from the
open set; `checkPositions` drops it by not re-adding it to `stillOpen`. -/
def closeTrade (pos : Position) (exitPrice : ℚ) (reason : Reason)
    (s : BotState) : BotState :=
  let pnl := (exitPrice - pos.entryPrice) * pos.quantity
  let pnlPercent := (exitPrice - pos.entryPrice) / pos.entryPrice * 100
  let returnValue := pos.valueEUR + pnl
  let trade : Trade :=
    { id := pos.id
      symbol := pos.symbol
      entryPrice := pos.entryPrice
      exitPrice := exitPrice
      quantity := pos.quantity
      pnl := pnl
      pnlPercent := pnlPercent
      result := if 0 ≤ pnl then TradeResult.WIN else TradeResult.LOSS
      reason := reason }
  { s with trades := trade :: s.trades, balance := s.balance + returnValue }

/-- The exit decision of `checkPositions` for one position against its
token: stop-loss first, then take-profit, then the profitable-sell-signal
exit; `none` means the position stays open. -/
def positionAction (token : Token) (pos : Position) : Option Reason :=
  let currentPrice := token.price
  let pnl := (currentPrice - pos.entryPrice) * pos.quantity
  if currentPrice ≤ pos.stopLoss then some Reason.SL
  else if pos.takeProfit ≤ currentPrice then some Reason.TP
  else if token.signal = Signal.SELL ∧ 0 < pnl then some Reason.SIGNAL
  else none

/-- One iteration of the `prev.forEach(pos => ...)` body of
`checkPositions`: a position with no matching token is kept untouched;
otherwise it is closed per `positionAction` or kept with its mark
(`currentPrice`, `pnl`, `pnlPercent`) updated. -/
def checkOne (tokens : List Token) (acc : BotState) (pos : Position) :
    BotState :=
  match tokens.find? (fun t => t.symbol = pos.symbol) with
  | none => { acc with positions := acc.positions ++ [pos] }
  | some token =>
    let currentPrice := token.price
    let pnl := (currentPrice - pos.entryPrice) * pos.quantity
    let pnlPercent := (currentPrice - pos.entryPrice) / pos.entryPrice * 100
    match positionAction token pos with
    | some r => closeTrade pos currentPrice r acc
    | none =>
      { acc with
          positions := acc.positions ++
            [{ pos with
                currentPrice := currentPrice
                pnl := pnl
                pnlPercent := pnlPercent }] }

/-- Embeds `checkPositions` from `src/unnamed/part_000`: rebuilds the open set
as `stillOpen` while closing the rest through `closeTrade`. -/
def checkPositions (tokens : List Token) (s : BotState) : BotState :=
  s.positions.foldl (checkOne tokens) { s with positions := [] }

/-- The trade sizing of `openPosition`:
`Math.min(balance * CONFIG.POSITION_SIZE, balance - 10)`. -/
def tradeValueOf (balance : ℚ) : ℚ :=
  min (balance * POSITION_SIZE) (balance - 10)

/-- Embeds `openPosition` from `src/unnamed/part_000` with React's
render-scope reads made explicit: the trade is sized from
`stale.balance` — the `balance` binding captured when the enclosing
tick began — while the `setPositions`/`setBalance` functional updates
apply to the accumulated state `acc`.  `nowId` stands for the
`Date.now()` identity. -/
def openPositionFrom (nowId : ℕ) (token : Token) (stale : BotState)
    (acc : BotState) : BotState :=
  let tradeValue := tradeValueOf stale.balance
  if tradeValue < 20 then acc
  else
    let quantity := tradeValue / token.price
    let position : Position :=
      { id := nowId
        symbol := token.symbol
        entryPrice := token.price
        currentPrice := token.price
        quantity := quantity
        valueEUR := tradeValue
        pnl := 0
        pnlPercent := 0
        stopLoss := token.price * (1 - STOP_LOSS)
        takeProfit := token.price * (1 + TAKE_PROFIT) }
    { acc with
        positions := acc.positions ++ [position]
        balance := acc.balance - tradeValue }

/-- Embeds `openPosition` as invoked in isolation (at most one open per
tick): the stale render-scope reads and the functional writes then
coincide on the same state. -/
def openPosition (nowId : ℕ) (token : Token) (s : BotState) : BotState :=
  openPositionFrom nowId token s s

/-- The `const position: Position = {...}` record `openPosition`
constructs for `token`, sized from the stale balance `b`. -/
def newPosition (nowId : ℕ) (token : Token) (b : ℚ) : Position :=
  { id := nowId
    symbol := token.symbol
    entryPrice := token.price
    currentPrice := token.price
    quantity := tradeValueOf b / token.price
    valueEUR := tradeValueOf b
    pnl := 0
    pnlPercent := 0
    stopLoss := token.price * (1 - STOP_LOSS)
    takeProfit := token.price * (1 + TAKE_PROFIT) }

/-- One iteration of the `currentTokens.forEach(token => ...)` body of
`processSignals` in `src/unnamed/part_000`: open on a BUY signal with a
positive price unless the symbol is already open, the position count
has reached `MAX_POSITIONS`, or the balance is not above 50.  Within
one `processSignals` call, `positions` and `balance` are render-scope
constants captured at tick entry: every token's hasPosition /
position-count / balance guard, and every open's sizing, read the
call-entry state `s`, while the `setX(prev => ...)` updates accumulate
through `acc` — so later opens in one tick are sized against the stale
balance and are not blocked by just-opened positions. -/
def signalStep (nowId : ℕ) (s : BotState) (acc : BotState)
    (token : Token) : BotState :=
  if token.signal = Signal.BUY ∧ 0 < token.price then
    if (¬ s.positions.any (fun p => p.symbol = token.symbol)) ∧
        s.positions.length < MAX_POSITIONS ∧ 50 < s.balance then
      openPositionFrom nowId token s acc
    else acc
  else acc

/-- Embeds `processSignals` from `src/unnamed/part_000`: the fold of
`signalStep` over the snapshot, starting from — and reading its stale
guards and sizing against — the call-entry state. -/
def processSignals (nowId : ℕ) (tokens : List Token) (s : BotState) :
    BotState :=
  tokens.foldl (signalStep nowId s) s

/-- One running tick of the bot as driven by `fetchPrices`:
`processSignals(updatedTokens)` then `checkPositions(updatedTokens)`. -/
def tick (nowId : ℕ) (tokens : List Token) (s : BotState) : BotState :=
  checkPositions tokens (processSignals nowId tokens s)

/-- The reachable ledger states of the autonomous bot: the initial
state, any running tick on a token snapshot with non-negative prices
(the provider reports USD prices), and `resetBot`.  The snapshot is
otherwise unconstrained, so this over-approximates the states the
program can reach. -/
inductive Reachable : BotState → Prop where
  | init : Reachable initState
  | tick (s : BotState) (nowId : ℕ) (tokens : List Token) :
      Reachable s → (∀ t ∈ tokens, 0 ≤ t.price) →
      Reachable (tick nowId tokens s)
  | reset (s : BotState) : Reachable s → Reachable initState

/-- The symbols of `TOKENS_CONFIG` in `src/unnamed/part_000`.  Every
snapshot handed to `processSignals`/`checkPositions` is built by
`fetchPrices` as `TOKENS_CONFIG.map(...)`, so its symbol list is
exactly this list (missing API data only zeroes a price, it never drops
the entry). -/
def TOKENS_SYMBOLS : List String :=
  ["SOL", "BONK", "WIF", "JUP", "POPCAT", "RENDER"]

/-- The reachable ledger states restricted to the snapshots
`fetchPrices` actually produces: one token per configured symbol, in
configuration order. -/
inductive ReachableCfg : BotState → Prop where
  | init : ReachableCfg initState
  | tick (s : BotState) (nowId : ℕ) (tokens : List Token) :
      ReachableCfg s → (∀ t ∈ tokens, 0 ≤ t.price) →
      tokens.map (fun t => t.symbol) = TOKENS_SYMBOLS →
      ReachableCfg (tick nowId tokens s)
  | reset (s : BotState) : ReachableCfg s → ReachableCfg initState

end Auto

namespace Manual

/-- Embeds `INITIAL_BALANCE` in `src/app/page.tsx`. -/
def INITIAL_BALANCE : ℚ := 1000

/-- Embeds `STOP_LOSS` (2.5%) in `src/app/page.tsx`. -/
def STOP_LOSS : ℚ := 25 / 1000

/-- Embeds `TAKE_PROFIT` (6%) in `src/app/page.tsx`. -/
def TAKE_PROFIT : ℚ := 6 / 100

/-- Embeds `EUR_RATE` (0.92) in `src/app/page.tsx`. -/
def EUR_RATE : ℚ := 92 / 100

/-- One entry of the manual variant's token snapshot (the `Token`
interface, minus the display-only `id`/`name`/`tier` fields). -/
structure Token where
  symbol : String
  price : ℚ
  change24h : ℚ
deriving DecidableEq, Repr

/-- The manual variant's `Position` interface (timestamp string dropped,
identity kept as `ℕ`). -/
structure Position where
  id : ℕ
  symbol : String
  entryPrice : ℚ
  quantity : ℚ
  valueEUR : ℚ
  stopLoss : ℚ
  takeProfit : ℚ
deriving DecidableEq, Repr

/-- The manual variant's trade `status` strings, as a closed variant:
`OPEN` for `'OPEN'`, `SL_HIT` for `'SL HIT ...'`, `TP_HIT` for
`'TP HIT ...'`, `CLOSED` for `'CLOSED'`. -/
inductive Status where
  | OPEN
  | SL_HIT
  | TP_HIT
  | CLOSED
deriving DecidableEq, Repr

/-- The manual variant's `Trade extends Position` record. -/
structure Trade extends Position where
  status : Status
  closePrice : Option ℚ
  closePnL : Option ℚ
deriving DecidableEq, Repr

/-- The ledger-relevant state of the manual page. -/
structure HState where
  balance : ℚ
  positions : List Position
  trades : List Trade
deriving DecidableEq, Repr

/-- The initial manual-page state. -/
def initState : HState :=
  { balance := INITIAL_BALANCE, positions := [], trades := [] }

/-- The exit decision of the manual `checkPositions` for one position at
a price: stop-loss first, then take-profit; no signal exit exists in
this variant. -/
def exitStatus (pos : Position) (currentPrice : ℚ) : Option Status :=
  if currentPrice ≤ pos.stopLoss then some Status.SL_HIT
  else if pos.takeProfit ≤ currentPrice then some Status.TP_HIT
  else none

/-- Accumulator of the manual `checkPositions` loop: the `stillOpen`
and `toClose` arrays plus the balance as updated by the interleaved
`setBalance` calls. -/
structure CheckAcc where
  stillOpen : List Position
  toClose : List Trade
  balance : ℚ
deriving DecidableEq, Repr

/-- One iteration of the `prev.forEach(pos => ...)` body of the manual
`checkPositions`: keep positions with no matching token, close on
stop-loss or take-profit crediting `valueEUR + pnlEUR`, keep otherwise. -/
def checkOne (tokens : List Token) (acc : CheckAcc) (pos : Position) :
    CheckAcc :=
  match tokens.find? (fun t => t.symbol = pos.symbol) with
  | none => { acc with stillOpen := acc.stillOpen ++ [pos] }
  | some token =>
    let currentPrice := token.price
    let pnlEUR := (currentPrice - pos.entryPrice) * pos.quantity * EUR_RATE
    match exitStatus pos currentPrice with
    | some st =>
      { acc with
          toClose := acc.toClose ++
            [{ toPosition := pos
               status := st
               closePrice := some currentPrice
               closePnL := some pnlEUR }]
          balance := acc.balance + pos.valueEUR + pnlEUR }
    | none => { acc with stillOpen := acc.stillOpen ++ [pos] }

/-- The manual `checkPositions`: fold the loop body over the open
positions, then commit `stillOpen`, prepend the batch `toClose` to the
trade history, and take the updated balance. -/
def checkPositions (tokens : List Token) (s : HState) : HState :=
  let r := s.positions.foldl (checkOne tokens)
    { stillOpen := [], toClose := [], balance := s.balance }
  { balance := r.balance
    positions := r.stillOpen
    trades := r.toClose ++ s.trades }

/-- Embeds `executeTrade` from `src/app/page.tsx`: no-op when the token is
missing or has price 0 or when `min(100, balance * 0.1)` is below 10;
otherwise debit the size, append the position, and record an OPEN trade
entry.  `nowId` stands for the `Date.now()` identity. -/
def executeTrade (nowId : ℕ) (tokens : List Token) (symbol : String)
    (s : HState) : HState :=
  match tokens.find? (fun t => t.symbol = symbol) with
  | none => s
  | some token =>
    if token.price = 0 then s
    else
      let tradeSize := min 100 (s.balance * (1 / 10))
      if tradeSize < 10 then s
      else
        let tradeSizeUSD := tradeSize / EUR_RATE
        let quantity := tradeSizeUSD / token.price
        let position : Position :=
          { id := nowId
            symbol := symbol
            entryPrice := token.price
            quantity := quantity
            valueEUR := tradeSize
            stopLoss := token.price * (1 - STOP_LOSS)
            takeProfit := token.price * (1 + TAKE_PROFIT) }
        { balance := s.balance - tradeSize
          positions := s.positions ++ [position]
          trades :=
            { toPosition := position
              status := Status.OPEN
              closePrice := none
              closePnL := none } :: s.trades }

/-- The close price used by the manual `closePosition`:
`token?.price || pos.entryPrice` — the entry price stands in both when
the symbol has no token and when the token's price is the falsy 0. -/
def closePriceFor (tokens : List Token) (pos : Position) : ℚ :=
  match tokens.find? (fun t => t.symbol = pos.symbol) with
  | none => pos.entryPrice
  | some token => if token.price = 0 then pos.entryPrice else token.price

/-- Embeds `closePosition` from `src/app/page.tsx`: close the identified
position at `closePriceFor`, credit `valueEUR + pnlEUR`, record a CLOSED
trade, and drop the position. -/
def closePosition (tokens : List Token) (posId : ℕ) (s : HState) :
    HState :=
  match s.positions.find? (fun p => p.id = posId) with
  | none => s
  | some pos =>
    let currentPrice := closePriceFor tokens pos
    let pnlEUR := (currentPrice - pos.entryPrice) * pos.quantity * EUR_RATE
    { balance := s.balance + pos.valueEUR + pnlEUR
      positions := s.positions.filter (fun p => ¬ p.id = posId)
      trades :=
        { toPosition := pos
          status := Status.CLOSED
          closePrice := some currentPrice
          closePnL := some pnlEUR } :: s.trades }

/-- The reachable states of the manual page: the initial state, a tick
(`checkPositions` on a snapshot with non-negative USD prices), a
user-triggered open (the market buttons invoke `executeTrade` only via
`!hasPosition && executeTrade(token.symbol)`, so the open action carries
that call-site guard), a user-triggered close, and `resetAll`. -/
inductive Reachable : HState → Prop where
  | init : Reachable initState
  | tick (s : HState) (tokens : List Token) :
      Reachable s → (∀ t ∈ tokens, 0 ≤ t.price) →
      Reachable (checkPositions tokens s)
  | uiOpen (s : HState) (nowId : ℕ) (tokens : List Token) (symbol : String) :
      Reachable s → (∀ t ∈ tokens, 0 ≤ t.price) →
      ¬ s.positions.any (fun p => p.symbol = symbol) →
      Reachable (executeTrade nowId tokens symbol s)
  | uiClose (s : HState) (tokens : List Token) (posId : ℕ) :
      Reachable s → (∀ t ∈ tokens, 0 ≤ t.price) →
      Reachable (closePosition tokens posId s)
  | reset (s : HState) : Reachable s → Reachable initState

end Manual

/-!
Specification-side formulation of the RSI accumulation (§4.2 of the
spec): the positive deltas and the absolute values of the non-positive
deltas over the trailing window, written as sums over the delta list of
the most recent `period + 1` prices.  These are compared against
`rsiLoop`, which embeds the source's index loop.
-/

/-- The contribution of one delta to `gains`. -/
def posPart (x : ℚ) : ℚ := if 0 < x then x else 0

/-- The contribution of one delta to `losses` (a zero delta contributes
zero to either sum). -/
def negPart (x : ℚ) : ℚ := if 0 < x then 0 else -x

/-- Consecutive differences of a price list. -/
def deltas (l : List ℚ) : List ℚ :=
  (l.zip l.tail).map (fun p => p.2 - p.1)

/-- The most recent `period` price deltas: the consecutive differences
of the trailing `period + 1` prices. -/
def recentDeltas (prices : List ℚ) (period : ℕ) : List ℚ :=
  deltas (prices.drop (prices.length - (period + 1)))

/-- Defines `gains` per the spec: the sum of the positive recent deltas. -/
def gainsSpec (prices : List ℚ) (period : ℕ) : ℚ :=
  ((recentDeltas prices period).map posPart).sum

/-- Defines `losses` per the spec: the sum of the absolute values of the
non-positive recent deltas. -/
def lossesSpec (prices : List ℚ) (period : ℕ) : ℚ :=
  ((recentDeltas prices period).map negPart).sum

namespace Auto

/-- The shape every position created by `openPosition` has: its
allocated value is its entry price times its quantity, and the quantity
is non-negative. -/
def GoodPos (p : Position) : Prop :=
  p.valueEUR = p.entryPrice * p.quantity ∧ 0 ≤ p.quantity

/-- Every SIGNAL-reason trade on record has strictly positive realized
P&L. -/
def TradesOk (trs : List Trade) : Prop :=
  ∀ tr ∈ trs, tr.reason = Reason.SIGNAL → 0 < tr.pnl

/-- The part of the ledger invariant that holds over arbitrary
snapshots (`Reachable`): well-shaped positions and SIGNAL trades with
positive P&L. -/
def Inv (s : BotState) : Prop :=
  (∀ p ∈ s.positions, GoodPos p) ∧ TradesOk s.trades

/-- The full ledger invariant, which additionally needs the snapshots
`fetchPrices` actually produces (`ReachableCfg`): a non-negative
balance and at most one open position per symbol. -/
def InvCfg (s : BotState) : Prop :=
  0 ≤ s.balance ∧ (∀ p ∈ s.positions, GoodPos p) ∧
    s.positions.Pairwise (fun a b => a.symbol ≠ b.symbol) ∧
    TradesOk s.trades

/-- A concrete open position used in concrete evaluations: entered at
100 with stop-loss 97 and take-profit 108. -/
def exPos : Position :=
  { id := 1, symbol := "SOL", entryPrice := 100, currentPrice := 100
    quantity := 1, valueEUR := 100, pnl := 0, pnlPercent := 0
    stopLoss := 97, takeProfit := 108 }

/-- A state holding only `exPos`. -/
def exState : BotState :=
  { balance := 900, positions := [exPos], trades := [] }

/-- A token snapshot reporting price 0 for the open symbol (the
provider returned no/zero data for it). -/
def zeroTokens : List Token :=
  [{ symbol := "SOL", price := 0, change24h := 0, rsi := 50
     signal := Signal.HOLD }]

/-- A token snapshot with a SELL signal at a price strictly between
`exPos`'s stop-loss and take-profit. -/
def sellToken : Token :=
  { symbol := "SOL", price := 104, change24h := 2, rsi := 75
    signal := Signal.SELL }

/-- A `fetchPrices`-shaped snapshot (the six configured symbols) in
which SOL and BONK both carry BUY signals at price 100 and the rest
hold. -/
def twoBuyTokens : List Token :=
  [{ symbol := "SOL", price := 100, change24h := -5, rsi := 30
     signal := Signal.BUY },
   { symbol := "BONK", price := 100, change24h := -5, rsi := 30
     signal := Signal.BUY },
   { symbol := "WIF", price := 100, change24h := 0, rsi := 50
     signal := Signal.HOLD },
   { symbol := "JUP", price := 100, change24h := 0, rsi := 50
     signal := Signal.HOLD },
   { symbol := "POPCAT", price := 100, change24h := 0, rsi := 50
     signal := Signal.HOLD },
   { symbol := "RENDER", price := 100, change24h := 0, rsi := 50
     signal := Signal.HOLD }]

/-- The SOL position the `twoBuyTokens` tick opens from the initial
state: sized 15% of the tick-entry balance 1000. -/
def cexPosSOL : Position :=
  { id := 1, symbol := "SOL", entryPrice := 100, currentPrice := 100
    quantity := 3 / 2, valueEUR := 150, pnl := 0, pnlPercent := 0
    stopLoss := 97, takeProfit := 108 }

/-- The BONK position the `twoBuyTokens` tick opens from the initial
state: also sized 15% of the stale tick-entry balance 1000, although
only 850 is available once the SOL debit is applied. -/
def cexPosBONK : Position :=
  { id := 1, symbol := "BONK", entryPrice := 100, currentPrice := 100
    quantity := 3 / 2, valueEUR := 150, pnl := 0, pnlPercent := 0
    stopLoss := 97, takeProfit := 108 }

end Auto

namespace Manual

/-- The shape every position created by `executeTrade` has: its
allocated EUR value is its entry price times quantity times the fixed
conversion rate, its quantity is non-negative, and its entry price is
strictly positive. -/
def GoodPos (p : Position) : Prop :=
  p.valueEUR = p.entryPrice * p.quantity * EUR_RATE ∧
    0 ≤ p.quantity ∧ 0 < p.entryPrice

/-- The inductive invariant of the manual page's ledger state. -/
def Inv (s : HState) : Prop :=
  0 ≤ s.balance ∧ (∀ p ∈ s.positions, GoodPos p) ∧
    s.positions.Pairwise (fun a b => a.symbol ≠ b.symbol)

/-- A concrete open position on SOL, entered at 100 (value €92, so
quantity `92 / 0.92 / 100 = 1`), with stop-loss 97 and take-profit 106. -/
def exPos : Position :=
  { id := 1, symbol := "SOL", entryPrice := 100, quantity := 1
    valueEUR := 92, stopLoss := 97, takeProfit := 106 }

/-- A state holding only `exPos`. -/
def exState : HState :=
  { balance := 900, positions := [exPos], trades := [] }

/-- A token snapshot quoting SOL at 100. -/
def exTokens : List Token :=
  [{ symbol := "SOL", price := 100, change24h := 0 }]

/-- A token snapshot quoting SOL at the falsy price 0. -/
def zeroTokens : List Token :=
  [{ symbol := "SOL", price := 0, change24h := 0 }]

end Manual

/-!
## Supporting lemmas

Bridging lemmas between the index-loop accumulation of `calculateRSI`
and the spec-side delta sums, and preservation lemmas for the ledger
invariants of both variants.
-/

namespace Auto

theorem glStep_foldl (ds : List ℚ) (g0 l0 : ℚ) :
    ds.foldl glStep (g0, l0) =
      (g0 + (ds.map posPart).sum, l0 + (ds.map negPart).sum) := by
  induction ds generalizing g0 l0 with
  | nil => simp
  | cons c ds ih =>
    by_cases h : 0 < c
    · rw [List.foldl_cons, show glStep (g0, l0) c = (g0 + c, l0) by
        simp [glStep, h], ih]
      simp only [List.map_cons, List.sum_cons, Prod.mk.injEq, posPart,
        negPart, if_pos h]
      constructor <;> ring
    · rw [List.foldl_cons, show glStep (g0, l0) c = (g0, l0 - c) by
        simp [glStep, h], ih]
      simp only [List.map_cons, List.sum_cons, Prod.mk.injEq, posPart,
        negPart, if_neg h]
      constructor <;> ring

theorem length_recentDeltas (prices : List ℚ) (period : ℕ)
    (h : period + 1 ≤ prices.length) :
    (recentDeltas prices period).length = period := by
  simp only [recentDeltas, deltas, List.length_map, List.length_zip,
    List.length_tail, List.length_drop]
  omega

theorem rsiLoop_eq_spec (prices : List ℚ) (period : ℕ)
    (h : period + 1 ≤ prices.length) :
    rsiLoop prices period =
      (gainsSpec prices period, lossesSpec prices period) := by
  have hmap : (List.range period).map
      (fun j => prices.getD (prices.length - period + j) 0 -
        prices.getD (prices.length - period + j - 1) 0) =
      recentDeltas prices period := by
    apply List.ext_getElem
    · rw [List.length_map, List.length_range, length_recentDeltas prices period h]
    · intro i h1 h2
      have hi : i < period := by simpa using h1
      have hb1 : prices.length - period + i < prices.length := by omega
      have hb2 : prices.length - period + i - 1 < prices.length := by omega
      rw [List.getElem_map, List.getElem_range,
        List.getD_eq_getElem prices 0 hb1, List.getD_eq_getElem prices 0 hb2]
      simp only [recentDeltas, deltas]
      rw [List.getElem_map, List.getElem_zip]
      simp only [List.getElem_tail, List.getElem_drop]
      have e1 : prices.length - (period + 1) + (i + 1) =
          prices.length - period + i := by omega
      have e2 : prices.length - (period + 1) + i =
          prices.length - period + i - 1 := by omega
      simp only [e1, e2]
  have step1 : rsiLoop prices period = ((List.range period).map
      (fun j => prices.getD (prices.length - period + j) 0 -
        prices.getD (prices.length - period + j - 1) 0)).foldl glStep (0, 0) := by
    rw [List.foldl_map]
    rfl
  rw [step1, hmap, glStep_foldl]
  simp [gainsSpec, lossesSpec]

end Auto

theorem gainsSpec_nonneg (prices : List ℚ) (period : ℕ) :
    0 ≤ gainsSpec prices period := by
  apply List.sum_nonneg
  intro a ha
  obtain ⟨x, _, rfl⟩ := List.mem_map.mp ha
  unfold posPart
  split <;> linarith

theorem lossesSpec_nonneg (prices : List ℚ) (period : ℕ) :
    0 ≤ lossesSpec prices period := by
  apply List.sum_nonneg
  intro a ha
  obtain ⟨x, hx, rfl⟩ := List.mem_map.mp ha
  unfold negPart
  split <;> linarith

namespace Auto

theorem closeTrade_spec (pos : Position) (exitPrice : ℚ) (r : Reason)
    (s : BotState) :
    (closeTrade pos exitPrice r s).balance =
        s.balance + pos.valueEUR + (exitPrice - pos.entryPrice) * pos.quantity ∧
    (closeTrade pos exitPrice r s).positions = s.positions ∧
    (closeTrade pos exitPrice r s).trades =
      { id := pos.id, symbol := pos.symbol, entryPrice := pos.entryPrice
        exitPrice := exitPrice, quantity := pos.quantity
        pnl := (exitPrice - pos.entryPrice) * pos.quantity
        pnlPercent := (exitPrice - pos.entryPrice) / pos.entryPrice * 100
        result := if 0 ≤ (exitPrice - pos.entryPrice) * pos.quantity
                  then TradeResult.WIN else TradeResult.LOSS
        reason := r } :: s.trades := by
  refine ⟨?_, rfl, rfl⟩
  simp only [closeTrade]
  ring

theorem positionAction_SIGNAL (t : Token) (p : Position)
    (h : positionAction t p = some Reason.SIGNAL) :
    t.signal = Signal.SELL ∧ 0 < (t.price - p.entryPrice) * p.quantity := by
  simp only [positionAction] at h
  split_ifs at h with h1 h2 h3 <;> simp_all

theorem checkOne_cases (tokens : List Token) (acc : BotState)
    (pos : Position) :
    (∃ t r, tokens.find? (fun tk => tk.symbol = pos.symbol) = some t ∧
       positionAction t pos = some r ∧
       checkOne tokens acc pos = closeTrade pos t.price r acc) ∨
    (∃ q : Position, checkOne tokens acc pos =
        { acc with positions := acc.positions ++ [q] } ∧
       q.symbol = pos.symbol ∧ q.valueEUR = pos.valueEUR ∧
       q.entryPrice = pos.entryPrice ∧ q.quantity = pos.quantity) := by
  cases hf : tokens.find? (fun tk => tk.symbol = pos.symbol) with
  | none =>
    right
    exact ⟨pos, by simp only [checkOne, hf], rfl, rfl, rfl, rfl⟩
  | some t =>
    cases ha : positionAction t pos with
    | some r =>
      left
      exact ⟨t, r, rfl, ha, by simp only [checkOne, hf, ha]⟩
    | none =>
      right
      exact ⟨{ pos with
                currentPrice := t.price,
                pnl := (t.price - pos.entryPrice) * pos.quantity,
                pnlPercent := (t.price - pos.entryPrice) / pos.entryPrice * 100 },
             by simp only [checkOne, hf, ha], rfl, rfl, rfl, rfl⟩

theorem checkFold_inv (tokens : List Token)
    (hT : ∀ t ∈ tokens, 0 ≤ t.price) :
    ∀ (ps : List Position) (acc : BotState),
      (∀ p ∈ acc.positions, GoodPos p) →
      TradesOk acc.trades → (∀ p ∈ ps, GoodPos p) →
      (0 ≤ acc.balance → 0 ≤ (ps.foldl (checkOne tokens) acc).balance) ∧
      (∀ p ∈ (ps.foldl (checkOne tokens) acc).positions, GoodPos p) ∧
      TradesOk (ps.foldl (checkOne tokens) acc).trades ∧
      ∃ l, (ps.foldl (checkOne tokens) acc).positions = acc.positions ++ l ∧
        List.Sublist (l.map (fun p => p.symbol)) (ps.map (fun p => p.symbol)) := by
  intro ps
  induction ps with
  | nil =>
    intro acc h2 h3 _
    exact ⟨fun h1 => h1, h2, h3, [], by simp, by simp⟩
  | cons pos ps ih =>
    intro acc h2 h3 h4
    have hpos : GoodPos pos := h4 pos (by simp)
    have h4' : ∀ p ∈ ps, GoodPos p := fun p hp => h4 p (by simp [hp])
    rw [List.foldl_cons]
    rcases checkOne_cases tokens acc pos with
      ⟨t, r, hf, ha, he⟩ | ⟨q, he, hq1, hq2, hq3, hq4⟩
    · have ht : t ∈ tokens := List.mem_of_find?_eq_some hf
      have htp : 0 ≤ t.price := hT t ht
      have hspec := closeTrade_spec pos t.price r acc
      have hb' : 0 ≤ acc.balance → 0 ≤ (closeTrade pos t.price r acc).balance := by
        intro h1
        rw [hspec.1, hpos.1]
        have hkey : acc.balance + pos.entryPrice * pos.quantity +
            (t.price - pos.entryPrice) * pos.quantity =
            acc.balance + t.price * pos.quantity := by ring
        rw [hkey]
        exact add_nonneg h1 (mul_nonneg htp hpos.2)
      have hg' : ∀ p ∈ (closeTrade pos t.price r acc).positions, GoodPos p := by
        rw [hspec.2.1]; exact h2
      have htr' : TradesOk (closeTrade pos t.price r acc).trades := by
        rw [hspec.2.2]
        intro tr hmem hsig
        rcases List.mem_cons.mp hmem with rfl | hmem'
        · have hr : r = Reason.SIGNAL := hsig
          have := positionAction_SIGNAL t pos (hr ▸ ha)
          simpa using this.2
        · exact h3 tr hmem' hsig
      rw [he]
      obtain ⟨hb'', hg'', htr'', l, hl, hsub⟩ := ih _ hg' htr' h4'
      refine ⟨fun h1 => hb'' (hb' h1), hg'', htr'', l, ?_, hsub.cons pos.symbol⟩
      rw [hl, hspec.2.1]
    · have hq : GoodPos q := by
        unfold GoodPos
        rw [hq2, hq3, hq4]
        exact hpos
      have hg' : ∀ p ∈ acc.positions ++ [q], GoodPos p := by
        intro p hp
        rcases List.mem_append.mp hp with hp' | hp'
        · exact h2 p hp'
        · rw [List.mem_singleton.mp hp']; exact hq
      rw [he]
      obtain ⟨hb'', hg'', htr'', l, hl, hsub⟩ := ih
        { acc with positions := acc.positions ++ [q] } hg' h3 h4'
      refine ⟨fun h1 => hb'' h1, hg'', htr'', q :: l, ?_, ?_⟩
      · rw [hl]
        simp
      · simpa [hq1] using hsub.cons₂ pos.symbol

theorem tradeValueOf_accept (b : ℚ) (h : ¬ tradeValueOf b < 20) :
    tradeValueOf b = b * POSITION_SIZE ∧
    tradeValueOf b ≤ b - 10 ∧ 20 ≤ tradeValueOf b := by
  push_neg at h
  have hr : tradeValueOf b ≤ b - 10 := min_le_right _ _
  have hl : tradeValueOf b ≤ b * POSITION_SIZE := min_le_left _ _
  have h15 : 20 ≤ b * POSITION_SIZE := le_trans h hl
  refine ⟨?_, hr, h⟩
  unfold tradeValueOf POSITION_SIZE at *
  rw [min_eq_left]
  linarith

theorem openPositionFrom_reject (nowId : ℕ) (token : Token)
    (stale acc : BotState) (hv : tradeValueOf stale.balance < 20) :
    openPositionFrom nowId token stale acc = acc := by
  simp only [openPositionFrom, if_pos hv]

theorem openPositionFrom_spec (nowId : ℕ) (token : Token)
    (stale acc : BotState) (hv : ¬ tradeValueOf stale.balance < 20) :
    openPositionFrom nowId token stale acc =
      { acc with
          positions := acc.positions ++ [newPosition nowId token stale.balance]
          balance := acc.balance - tradeValueOf stale.balance } := by
  simp only [openPositionFrom, newPosition, if_neg hv]

theorem openPosition_reject (nowId : ℕ) (token : Token) (s : BotState)
    (hv : tradeValueOf s.balance < 20) :
    openPosition nowId token s = s :=
  openPositionFrom_reject nowId token s s hv

theorem openPosition_spec (nowId : ℕ) (token : Token) (s : BotState)
    (hv : ¬ tradeValueOf s.balance < 20) :
    openPosition nowId token s =
      { s with
          positions := s.positions ++ [newPosition nowId token s.balance]
          balance := s.balance - tradeValueOf s.balance } :=
  openPositionFrom_spec nowId token s s hv

theorem newPosition_goodPos (nowId : ℕ) (token : Token) (b : ℚ)
    (hp : 0 < token.price) (hv : ¬ tradeValueOf b < 20) :
    GoodPos (newPosition nowId token b) := by
  push_neg at hv
  constructor
  · simp only [newPosition, GoodPos]
    field_simp
  · simp only [newPosition]
    exact div_nonneg (by linarith) hp.le

theorem signalStep_cases (nowId : ℕ) (s acc : BotState) (token : Token) :
    signalStep nowId s acc token = acc ∨
    (token.signal = Signal.BUY ∧ 0 < token.price ∧
     (¬ s.positions.any (fun p => p.symbol = token.symbol)) ∧
     ∃ q : Position, q.symbol = token.symbol ∧ GoodPos q ∧
       signalStep nowId s acc token =
         { acc with
             positions := acc.positions ++ [q]
             balance := acc.balance - tradeValueOf s.balance }) := by
  unfold signalStep
  split_ifs with hc hg
  · by_cases hv : tradeValueOf s.balance < 20
    · exact Or.inl (openPositionFrom_reject nowId token s acc hv)
    · right
      exact ⟨hc.1, hc.2, hg.1,
        newPosition nowId token s.balance, rfl,
        newPosition_goodPos nowId token s.balance hc.2 hv,
        openPositionFrom_spec nowId token s acc hv⟩
  · exact Or.inl rfl
  · exact Or.inl rfl

theorem processSignals_fold (nowId : ℕ) (s : BotState) :
    ∀ (tokens : List Token) (acc : BotState),
      (tokens.foldl (signalStep nowId s) acc).trades = acc.trades ∧
      ((∀ p ∈ acc.positions, GoodPos p) →
        ∀ p ∈ (tokens.foldl (signalStep nowId s) acc).positions, GoodPos p) ∧
      (0 ≤ s.balance →
        acc.balance - tokens.length * (POSITION_SIZE * s.balance) ≤
          (tokens.foldl (signalStep nowId s) acc).balance) ∧
      ∃ l, (tokens.foldl (signalStep nowId s) acc).positions =
          acc.positions ++ l ∧
        List.Sublist (l.map (fun p => p.symbol))
          (tokens.map (fun t => t.symbol)) ∧
        ∀ q ∈ l, GoodPos q ∧
          ∃ t ∈ tokens, t.symbol = q.symbol ∧ 0 < t.price ∧
            t.signal = Signal.BUY ∧
            ¬ s.positions.any (fun p0 => p0.symbol = t.symbol) := by
  intro tokens
  induction tokens with
  | nil =>
    intro acc
    refine ⟨rfl, fun h => h, ?_, [], by simp, by simp, by simp⟩
    intro _
    simp
  | cons token rest ih =>
    intro acc
    rw [List.foldl_cons]
    rcases signalStep_cases nowId s acc token with
      heq | ⟨hbuy, hpr, hns, q, hqs, hqg, heq⟩
    · rw [heq]
      obtain ⟨h1, h2, h3, l, hl, hsub, hq⟩ := ih acc
      refine ⟨h1, h2, ?_, l, hl, hsub.cons token.symbol, ?_⟩
      · intro hs
        have hb := h3 hs
        have hps : 0 ≤ POSITION_SIZE * s.balance :=
          mul_nonneg (by norm_num [POSITION_SIZE]) hs
        simp only [List.length_cons]
        push_cast
        linarith
      · intro q' hq'
        obtain ⟨hg, t, htmem, hts⟩ := hq q' hq'
        exact ⟨hg, t, by simp [htmem], hts⟩
    · rw [heq]
      obtain ⟨h1, h2, h3, l, hl, hsub, hq⟩ := ih
        { acc with
            positions := acc.positions ++ [q]
            balance := acc.balance - tradeValueOf s.balance }
      refine ⟨h1, ?_, ?_, q :: l, ?_, ?_, ?_⟩
      · intro hacc
        apply h2
        intro p hp
        rcases List.mem_append.mp hp with hp' | hp'
        · exact hacc p hp'
        · rw [List.mem_singleton.mp hp']
          exact hqg
      · intro hs
        have hb := h3 hs
        have htv : tradeValueOf s.balance ≤ POSITION_SIZE * s.balance := by
          unfold tradeValueOf
          rw [mul_comm POSITION_SIZE s.balance]
          exact min_le_left _ _
        simp only [List.length_cons]
        push_cast
        dsimp only at hb
        linarith
      · rw [hl]
        simp
      · have : (q :: l).map (fun p => p.symbol) =
            token.symbol :: l.map (fun p => p.symbol) := by
          simp [hqs]
        rw [this, List.map_cons]
        exact hsub.cons₂ token.symbol
      · intro q' hq'
        rcases List.mem_cons.mp hq' with rfl | hq''
        · exact ⟨hqg, token, by simp, hqs.symm, hpr, hbuy, hns⟩
        · obtain ⟨hg, t, htmem, hts⟩ := hq q' hq''
          exact ⟨hg, t, by simp [htmem], hts⟩

theorem processSignals_trades (nowId : ℕ) (tokens : List Token)
    (s : BotState) : (processSignals nowId tokens s).trades = s.trades :=
  (processSignals_fold nowId s tokens s).1

theorem processSignals_goodpos (nowId : ℕ) (tokens : List Token)
    (s : BotState) (h : ∀ p ∈ s.positions, GoodPos p) :
    ∀ p ∈ (processSignals nowId tokens s).positions, GoodPos p :=
  (processSignals_fold nowId s tokens s).2.1 h

theorem processSignals_balance (nowId : ℕ) (tokens : List Token)
    (s : BotState) (hs : 0 ≤ s.balance) :
    s.balance - tokens.length * (POSITION_SIZE * s.balance) ≤
      (processSignals nowId tokens s).balance :=
  (processSignals_fold nowId s tokens s).2.2.1 hs

theorem processSignals_positions (nowId : ℕ) (tokens : List Token)
    (s : BotState) :
    ∃ l, (processSignals nowId tokens s).positions = s.positions ++ l ∧
      List.Sublist (l.map (fun p => p.symbol))
        (tokens.map (fun t => t.symbol)) ∧
      ∀ q ∈ l, GoodPos q ∧
        ∃ t ∈ tokens, t.symbol = q.symbol ∧ 0 < t.price ∧
          t.signal = Signal.BUY ∧
          ¬ s.positions.any (fun p0 => p0.symbol = t.symbol) :=
  (processSignals_fold nowId s tokens s).2.2.2

theorem processSignals_inv (nowId : ℕ) (tokens : List Token)
    (s : BotState) (h : Inv s) : Inv (processSignals nowId tokens s) := by
  refine ⟨processSignals_goodpos nowId tokens s h.1, ?_⟩
  rw [processSignals_trades]
  exact h.2

theorem processSignals_invCfg (nowId : ℕ) (tokens : List Token)
    (s : BotState) (h : InvCfg s)
    (hdist : (tokens.map (fun t => t.symbol)).Pairwise (fun a b => a ≠ b))
    (hlen : tokens.length ≤ 6) :
    InvCfg (processSignals nowId tokens s) := by
  obtain ⟨h1, h2, h3, h4⟩ := h
  obtain ⟨l, hl, hsub, hq⟩ := processSignals_positions nowId tokens s
  refine ⟨?_, processSignals_goodpos nowId tokens s h2, ?_, ?_⟩
  · have hb := processSignals_balance nowId tokens s h1
    have hps : 0 ≤ POSITION_SIZE * s.balance :=
      mul_nonneg (by norm_num [POSITION_SIZE]) h1
    have hcast : (tokens.length : ℚ) ≤ 6 := by exact_mod_cast hlen
    have hmul : (tokens.length : ℚ) * (POSITION_SIZE * s.balance) ≤
        6 * (POSITION_SIZE * s.balance) :=
      mul_le_mul_of_nonneg_right hcast hps
    have h6 : 6 * (POSITION_SIZE * s.balance) = (9 : ℚ) / 10 * s.balance := by
      unfold POSITION_SIZE
      ring
    linarith
  · rw [hl, List.pairwise_append]
    refine ⟨h3, ?_, ?_⟩
    · have hml : (l.map (fun p => p.symbol)).Pairwise (fun a b => a ≠ b) :=
        List.Pairwise.sublist hsub hdist
      simpa using (List.pairwise_map).mp hml
    · intro a ha b hb
      obtain ⟨_, t, htmem, hts, _, _, hnot⟩ := hq b hb
      intro he
      apply hnot
      exact List.any_eq_true.mpr ⟨a, ha, by simp [he, hts]⟩
  · rw [processSignals_trades]
    exact h4

theorem checkPositions_inv (tokens : List Token)
    (hT : ∀ t ∈ tokens, 0 ≤ t.price) (s : BotState) (h : Inv s) :
    Inv (checkPositions tokens s) := by
  obtain ⟨h2, h4⟩ := h
  unfold checkPositions
  obtain ⟨hb, hg, htr, l, hpos, hsub⟩ :=
    checkFold_inv tokens hT s.positions { s with positions := [] }
      (by simp) h4 h2
  exact ⟨hg, htr⟩

theorem checkPositions_invCfg (tokens : List Token)
    (hT : ∀ t ∈ tokens, 0 ≤ t.price) (s : BotState) (h : InvCfg s) :
    InvCfg (checkPositions tokens s) := by
  obtain ⟨h1, h2, h3, h4⟩ := h
  unfold checkPositions
  obtain ⟨hb, hg, htr, l, hpos, hsub⟩ :=
    checkFold_inv tokens hT s.positions { s with positions := [] }
      (by simp) h4 h2
  refine ⟨hb h1, hg, ?_, htr⟩
  rw [hpos]
  have hml : (l.map (fun p => p.symbol)).Pairwise (fun a b => a ≠ b) :=
    List.Pairwise.sublist hsub ((List.pairwise_map).mpr h3)
  simpa using (List.pairwise_map).mp hml

theorem checkPositions_balance_of_none (tokens : List Token) (s : BotState)
    (h : ∀ pos ∈ s.positions, ∀ t,
      tokens.find? (fun tk => tk.symbol = pos.symbol) = some t →
      positionAction t pos = none) :
    (checkPositions tokens s).balance = s.balance := by
  unfold checkPositions
  have key : ∀ (ps : List Position) (acc : BotState),
      (∀ pos ∈ ps, ∀ t,
        tokens.find? (fun tk => tk.symbol = pos.symbol) = some t →
        positionAction t pos = none) →
      (ps.foldl (checkOne tokens) acc).balance = acc.balance := by
    intro ps
    induction ps with
    | nil => intro acc _; rfl
    | cons pos ps ih =>
      intro acc hps
      rw [List.foldl_cons]
      rcases checkOne_cases tokens acc pos with
        ⟨t, r, hf, ha, he⟩ | ⟨q, he, _, _, _, _⟩
      · have hnone := hps pos (by simp) t hf
        rw [hnone] at ha
        cases ha
      · rw [he, ih _ (fun p hp => hps p (by simp [hp]))]
  exact key s.positions { s with positions := [] } h

theorem initState_inv : Inv initState := by
  constructor
  · intro p hp
    simp [initState] at hp
  · intro tr htr
    simp [initState] at htr

theorem initState_invCfg : InvCfg initState := by
  refine ⟨by norm_num [initState, INITIAL_BALANCE], ?_, ?_, ?_⟩
  · intro p hp
    simp [initState] at hp
  · simp [initState]
  · intro tr htr
    simp [initState] at htr

theorem reachable_inv (s : BotState) (h : Reachable s) : Inv s := by
  induction h with
  | init => exact initState_inv
  | tick s nowId tokens hr hT ih =>
    exact checkPositions_inv tokens hT _ (processSignals_inv nowId tokens s ih)
  | reset s hr => exact initState_inv

theorem reachableCfg_inv (s : BotState) (h : ReachableCfg s) : InvCfg s := by
  induction h with
  | init => exact initState_invCfg
  | tick s nowId tokens hr hT hshape ih =>
    have hdist : (tokens.map (fun t => t.symbol)).Pairwise
        (fun a b => a ≠ b) := by
      rw [hshape]
      decide
    have hlen : tokens.length ≤ 6 := by
      have hlm := congrArg List.length hshape
      simp [TOKENS_SYMBOLS] at hlm
      omega
    exact checkPositions_invCfg tokens hT _
      (processSignals_invCfg nowId tokens s ih hdist hlen)
  | reset s hr => exact initState_invCfg

end Auto

namespace Manual

theorem mCheckOne_cases (tokens : List Token) (acc : CheckAcc)
    (pos : Position) :
    (∃ t st, tokens.find? (fun tk => tk.symbol = pos.symbol) = some t ∧
       exitStatus pos t.price = some st ∧
       (checkOne tokens acc pos).stillOpen = acc.stillOpen ∧
       (checkOne tokens acc pos).balance = acc.balance + pos.valueEUR +
         (t.price - pos.entryPrice) * pos.quantity * EUR_RATE ∧
       (checkOne tokens acc pos).toClose = acc.toClose ++
         [{ toPosition := pos,
            status := st,
            closePrice := some t.price,
            closePnL :=
              some ((t.price - pos.entryPrice) * pos.quantity * EUR_RATE) }]) ∨
    ((checkOne tokens acc pos).stillOpen = acc.stillOpen ++ [pos] ∧
     (checkOne tokens acc pos).balance = acc.balance ∧
     (checkOne tokens acc pos).toClose = acc.toClose) := by
  cases hf : tokens.find? (fun tk => tk.symbol = pos.symbol) with
  | none =>
    right
    refine ⟨?_, ?_, ?_⟩ <;> simp only [checkOne, hf]
  | some t =>
    cases he : exitStatus pos t.price with
    | some st =>
      left
      refine ⟨t, st, rfl, he, ?_, ?_, ?_⟩ <;> simp only [checkOne, hf, he]
    | none =>
      right
      refine ⟨?_, ?_, ?_⟩ <;> simp only [checkOne, hf, he]

theorem mCheckFold_inv (tokens : List Token)
    (hT : ∀ t ∈ tokens, 0 ≤ t.price) :
    ∀ (ps : List Position) (acc : CheckAcc),
      0 ≤ acc.balance → (∀ p ∈ acc.stillOpen, GoodPos p) →
      (∀ p ∈ ps, GoodPos p) →
      0 ≤ (ps.foldl (checkOne tokens) acc).balance ∧
      (∀ p ∈ (ps.foldl (checkOne tokens) acc).stillOpen, GoodPos p) ∧
      ∃ l, (ps.foldl (checkOne tokens) acc).stillOpen = acc.stillOpen ++ l ∧
        List.Sublist l ps := by
  intro ps
  induction ps with
  | nil =>
    intro acc h1 h2 _
    exact ⟨h1, h2, [], by simp, by simp⟩
  | cons pos ps ih =>
    intro acc h1 h2 h3
    have hpos : GoodPos pos := h3 pos (by simp)
    have h3' : ∀ p ∈ ps, GoodPos p := fun p hp => h3 p (by simp [hp])
    rw [List.foldl_cons]
    rcases mCheckOne_cases tokens acc pos with
      ⟨t, st, hf, he, hop, hbal, _⟩ | ⟨hop, hbal, _⟩
    · have ht : t ∈ tokens := List.mem_of_find?_eq_some hf
      have htp : 0 ≤ t.price := hT t ht
      have hb' : 0 ≤ (checkOne tokens acc pos).balance := by
        rw [hbal, hpos.1]
        have hkey : acc.balance + pos.entryPrice * pos.quantity * EUR_RATE +
            (t.price - pos.entryPrice) * pos.quantity * EUR_RATE =
            acc.balance + t.price * pos.quantity * EUR_RATE := by ring
        rw [hkey]
        have : (0:ℚ) ≤ EUR_RATE := by norm_num [EUR_RATE]
        exact add_nonneg h1 (mul_nonneg (mul_nonneg htp hpos.2.1) this)
      have hg' : ∀ p ∈ (checkOne tokens acc pos).stillOpen, GoodPos p := by
        rw [hop]; exact h2
      obtain ⟨hb'', hg'', l, hl, hsub⟩ := ih _ hb' hg' h3'
      refine ⟨hb'', hg'', l, ?_, hsub.cons pos⟩
      rw [hl, hop]
    · have hb' : 0 ≤ (checkOne tokens acc pos).balance := by
        rw [hbal]; exact h1
      have hg' : ∀ p ∈ (checkOne tokens acc pos).stillOpen, GoodPos p := by
        rw [hop]
        intro p hp
        rcases List.mem_append.mp hp with hp' | hp'
        · exact h2 p hp'
        · rw [List.mem_singleton.mp hp']; exact hpos
      obtain ⟨hb'', hg'', l, hl, hsub⟩ := ih _ hb' hg' h3'
      refine ⟨hb'', hg'', pos :: l, ?_, hsub.cons₂ pos⟩
      rw [hl, hop]
      simp

theorem mCheckPositions_inv (tokens : List Token)
    (hT : ∀ t ∈ tokens, 0 ≤ t.price) (s : HState) (h : Inv s) :
    Inv (checkPositions tokens s) := by
  obtain ⟨h1, h2, h3⟩ := h
  unfold checkPositions
  obtain ⟨hb, hg, l, hl, hsub⟩ :=
    mCheckFold_inv tokens hT s.positions
      { stillOpen := [], toClose := [], balance := s.balance }
      h1 (by simp) h2
  refine ⟨hb, hg, ?_⟩
  dsimp only
  rw [hl]
  simpa using List.Pairwise.sublist hsub h3

theorem closePriceFor_nonneg (tokens : List Token)
    (hT : ∀ t ∈ tokens, 0 ≤ t.price) (pos : Position)
    (he : 0 < pos.entryPrice) : 0 ≤ closePriceFor tokens pos := by
  cases hf : tokens.find? (fun tk => tk.symbol = pos.symbol) with
  | none =>
    simp only [closePriceFor, hf]
    exact he.le
  | some t =>
    have ht : t ∈ tokens := List.mem_of_find?_eq_some hf
    by_cases hz : t.price = 0
    · simp only [closePriceFor, hf, if_pos hz]
      exact he.le
    · simp only [closePriceFor, hf, if_neg hz]
      exact hT t ht

theorem executeTrade_inv (nowId : ℕ) (tokens : List Token)
    (symbol : String) (s : HState) (h : Inv s)
    (hT : ∀ t ∈ tokens, 0 ≤ t.price)
    (hns : ∀ p ∈ s.positions, p.symbol ≠ symbol) :
    Inv (executeTrade nowId tokens symbol s) := by
  obtain ⟨h1, h2, h3⟩ := h
  cases hf : tokens.find? (fun tk => tk.symbol = symbol) with
  | none =>
    simp only [executeTrade, hf]
    exact ⟨h1, h2, h3⟩
  | some token =>
    have ht : token ∈ tokens := List.mem_of_find?_eq_some hf
    by_cases hz : token.price = 0
    · simp only [executeTrade, hf, if_pos hz]
      exact ⟨h1, h2, h3⟩
    · have hp : 0 < token.price := lt_of_le_of_ne (hT token ht) (Ne.symm hz)
      by_cases hsz : min 100 (s.balance * (1 / 10)) < 10
      · simp only [executeTrade, hf, if_neg hz, if_pos hsz]
        exact ⟨h1, h2, h3⟩
      · simp only [executeTrade, hf, if_neg hz, if_neg hsz]
        push_neg at hsz
        have hmin : min 100 (s.balance * (1 / 10)) ≤ s.balance * (1 / 10) :=
          min_le_right _ _
        refine ⟨by dsimp only; linarith, ?_, ?_⟩
        · intro p hp'
          rcases List.mem_append.mp hp' with hp' | hp'
          · exact h2 p hp'
          · rw [List.mem_singleton.mp hp']
            refine ⟨?_, ?_, by dsimp only; exact hp⟩
            · dsimp only
              have hrate : (EUR_RATE : ℚ) ≠ 0 := by norm_num [EUR_RATE]
              field_simp
              ring
            · dsimp only
              have hrate : (0:ℚ) < EUR_RATE := by norm_num [EUR_RATE]
              positivity
        · dsimp only
          rw [List.pairwise_append]
          refine ⟨h3, List.pairwise_singleton _ _, ?_⟩
          intro a ha b hb
          rw [List.mem_singleton.mp hb]
          exact hns a ha

theorem closePosition_inv (tokens : List Token) (posId : ℕ) (s : HState)
    (h : Inv s) (hT : ∀ t ∈ tokens, 0 ≤ t.price) :
    Inv (closePosition tokens posId s) := by
  obtain ⟨h1, h2, h3⟩ := h
  cases hf : s.positions.find? (fun p => p.id = posId) with
  | none =>
    simp only [closePosition, hf]
    exact ⟨h1, h2, h3⟩
  | some pos =>
    have hmem : pos ∈ s.positions := List.mem_of_find?_eq_some hf
    have hgood : GoodPos pos := h2 pos hmem
    have hcur : 0 ≤ closePriceFor tokens pos :=
      closePriceFor_nonneg tokens hT pos hgood.2.2
    simp only [closePosition, hf]
    refine ⟨?_, ?_, ?_⟩
    · dsimp only
      rw [hgood.1]
      have hkey : s.balance + pos.entryPrice * pos.quantity * EUR_RATE +
          (closePriceFor tokens pos - pos.entryPrice) * pos.quantity * EUR_RATE =
          s.balance + closePriceFor tokens pos * pos.quantity * EUR_RATE := by
        ring
      rw [hkey]
      have hrate : (0:ℚ) ≤ EUR_RATE := by norm_num [EUR_RATE]
      exact add_nonneg h1 (mul_nonneg (mul_nonneg hcur hgood.2.1) hrate)
    · intro p hp
      exact h2 p (List.mem_of_mem_filter hp)
    · exact List.Pairwise.sublist (List.filter_sublist _) h3

theorem mInitState_inv : Inv initState := by
  refine ⟨by norm_num [initState, INITIAL_BALANCE], ?_, ?_⟩
  · intro p hp
    simp [initState] at hp
  · simp [initState]

theorem mReachable_inv (s : HState) (h : Reachable s) : Inv s := by
  induction h with
  | init => exact mInitState_inv
  | tick s tokens hr hT ih => exact mCheckPositions_inv tokens hT s ih
  | uiOpen s nowId tokens symbol hr hT hns ih =>
    refine executeTrade_inv nowId tokens symbol s ih hT ?_
    intro p hp he
    have : s.positions.any (fun p => p.symbol = symbol) = true :=
      List.any_eq_true.mpr ⟨p, hp, by simp [he]⟩
    exact hns this
  | uiClose s tokens posId hr hT ih => exact closePosition_inv tokens posId s ih hT
  | reset s hr => exact mInitState_inv

end Manual

namespace Auto

theorem processSignals_new_positions (nowId : ℕ) (tokens : List Token)
    (s : BotState) (p : Position)
    (hp : p ∈ (processSignals nowId tokens s).positions) :
    p ∈ s.positions ∨
      ∃ t ∈ tokens, t.symbol = p.symbol ∧ 0 < t.price ∧
        t.signal = Signal.BUY := by
  obtain ⟨l, hl, hsub, hq⟩ := processSignals_positions nowId tokens s
  rw [hl] at hp
  rcases List.mem_append.mp hp with hp' | hp'
  · exact Or.inl hp'
  · obtain ⟨_, t, htmem, hts, hpr, hbuy, _⟩ := hq p hp'
    exact Or.inr ⟨t, htmem, hts, hpr, hbuy⟩

end Auto

/-!
## Claim theorems
-/

/-- C1: for every price history at period 14, `calculateRSI` returns 50
when the history has fewer than 15 entries; otherwise it equals
`100` when the average loss over the most recent 14 deltas is zero and
`100 − 100/(1 + avgGain/avgLoss)` otherwise, with `avgGain`/`avgLoss`
the by-14 averages of the positive-delta and absolute-negative-delta
sums; and the result always lies in `[0, 100]`. -/
theorem C1_calculateRSI (prices : List ℚ) :
    (prices.length < 15 → Auto.calculateRSI prices 14 = 50) ∧
    (15 ≤ prices.length →
      Auto.calculateRSI prices 14 =
        (if lossesSpec prices 14 / 14 = 0 then 100
         else 100 - 100 /
           (1 + (gainsSpec prices 14 / 14) / (lossesSpec prices 14 / 14)))) ∧
    0 ≤ Auto.calculateRSI prices 14 ∧ Auto.calculateRSI prices 14 ≤ 100 := by
  have hG := gainsSpec_nonneg prices 14
  have hL := lossesSpec_nonneg prices 14
  by_cases hlen : prices.length < 15
  · have h50 : Auto.calculateRSI prices 14 = 50 := by
      unfold Auto.calculateRSI
      rw [if_pos (by omega)]
    exact ⟨fun _ => h50, fun h => absurd h (by omega),
      by rw [h50]; norm_num, by rw [h50]; norm_num⟩
  · have hform : Auto.calculateRSI prices 14 =
        (if lossesSpec prices 14 / 14 = 0 then 100
         else 100 - 100 /
           (1 + (gainsSpec prices 14 / 14) / (lossesSpec prices 14 / 14))) := by
      simp only [Auto.calculateRSI, Auto.rsiLoop_eq_spec prices 14 (by omega),
        Nat.cast_ofNat]
      rw [if_neg (by omega)]
    refine ⟨fun h => absurd h (by omega), fun _ => hform, ?_, ?_⟩
    · rw [hform]
      split
      · norm_num
      · rename_i hne
        have hLpos : 0 < lossesSpec prices 14 / 14 :=
          lt_of_le_of_ne (by positivity) (Ne.symm hne)
        have hrs : 0 ≤ (gainsSpec prices 14 / 14) / (lossesSpec prices 14 / 14) :=
          div_nonneg (by positivity) hLpos.le
        have hle : 100 / (1 + (gainsSpec prices 14 / 14) / (lossesSpec prices 14 / 14)) ≤ 100 := by
          apply div_le_self <;> linarith
        linarith
    · rw [hform]
      split
      · norm_num
      · rename_i hne
        have hLpos : 0 < lossesSpec prices 14 / 14 :=
          lt_of_le_of_ne (by positivity) (Ne.symm hne)
        have hrs : 0 ≤ (gainsSpec prices 14 / 14) / (lossesSpec prices 14 / 14) :=
          div_nonneg (by positivity) hLpos.le
        have hpos : 0 < 100 / (1 + (gainsSpec prices 14 / 14) / (lossesSpec prices 14 / 14)) := by
          apply div_pos <;> linarith
        linarith

/-- Witness for C1: the short-history branch at a 2-entry history and
the formula branch at a 15-entry history. -/
theorem C1_calculateRSI_witness :
    Auto.calculateRSI [(1:ℚ), 2] 14 = 50 ∧
    Auto.calculateRSI [(1:ℚ), 2, 3, 4, 5, 6, 7, 8, 9, 10, 11, 12, 13, 14, 15] 14 =
      (if lossesSpec [(1:ℚ), 2, 3, 4, 5, 6, 7, 8, 9, 10, 11, 12, 13, 14, 15] 14 / 14 = 0
       then 100
       else 100 - 100 /
         (1 + (gainsSpec [(1:ℚ), 2, 3, 4, 5, 6, 7, 8, 9, 10, 11, 12, 13, 14, 15] 14 / 14) /
           (lossesSpec [(1:ℚ), 2, 3, 4, 5, 6, 7, 8, 9, 10, 11, 12, 13, 14, 15] 14 / 14))) :=
  ⟨(C1_calculateRSI [(1:ℚ), 2]).1 (by decide),
   (C1_calculateRSI [(1:ℚ), 2, 3, 4, 5, 6, 7, 8, 9, 10, 11, 12, 13, 14, 15]).2.1 (by decide)⟩

/-- C2: the signal classifier is a pure function with BUY iff
`rsi < 35 ∧ change24h < −3`, SELL iff `rsi > 70` and not BUY, HOLD
otherwise, and the four concrete classifications from the spec. -/
theorem C2_getSignal :
    (∀ rsi change24h : ℚ,
      Auto.getSignal rsi change24h = Signal.BUY ↔ rsi < 35 ∧ change24h < -3) ∧
    (∀ rsi change24h : ℚ,
      Auto.getSignal rsi change24h = Signal.SELL ↔
        70 < rsi ∧ ¬(rsi < 35 ∧ change24h < -3)) ∧
    (∀ rsi change24h : ℚ,
      Auto.getSignal rsi change24h = Signal.HOLD ↔
        ¬(rsi < 35 ∧ change24h < -3) ∧ ¬70 < rsi) ∧
    Auto.getSignal 30 (-5) = Signal.BUY ∧
    Auto.getSignal 30 (-1) = Signal.HOLD ∧
    Auto.getSignal 75 2 = Signal.SELL ∧
    Auto.getSignal 50 0 = Signal.HOLD := by
  refine ⟨?_, ?_, ?_, by decide, by decide, by decide, by decide⟩ <;>
    · intro r c
      unfold Auto.getSignal Auto.RSI_BUY Auto.RSI_SELL Auto.MIN_CHANGE_BUY
      split_ifs <;> simp_all

/-- Witness for C2 at the spec's concrete classifications. -/
theorem C2_getSignal_witness :
    Auto.getSignal 30 (-5) = Signal.BUY ∧ Auto.getSignal 50 0 = Signal.HOLD :=
  ⟨C2_getSignal.2.2.2.1, C2_getSignal.2.2.2.2.2.2⟩

/-- C3: in the per-tick exit check of both variants, stop-loss is
evaluated strictly before take-profit: at or below the stop-loss the
close reason is SL even when simultaneously at or above the
take-profit; a TP close can only happen strictly above the stop-loss
and at or above the take-profit; a straddling price never closes TP. -/
theorem C3_exit_priority :
    (∀ (t : Auto.Token) (p : Auto.Position),
      t.price ≤ p.stopLoss → Auto.positionAction t p = some Auto.Reason.SL) ∧
    (∀ (t : Auto.Token) (p : Auto.Position),
      Auto.positionAction t p = some Auto.Reason.TP →
        p.stopLoss < t.price ∧ p.takeProfit ≤ t.price) ∧
    (∀ (t : Auto.Token) (p : Auto.Position),
      t.price ≤ p.stopLoss → p.takeProfit ≤ t.price →
        ¬ Auto.positionAction t p = some Auto.Reason.TP) ∧
    (∀ (p : Manual.Position) (c : ℚ),
      c ≤ p.stopLoss → Manual.exitStatus p c = some Manual.Status.SL_HIT) ∧
    (∀ (p : Manual.Position) (c : ℚ),
      Manual.exitStatus p c = some Manual.Status.TP_HIT →
        p.stopLoss < c ∧ p.takeProfit ≤ c) ∧
    (∀ (p : Manual.Position) (c : ℚ),
      c ≤ p.stopLoss → p.takeProfit ≤ c →
        ¬ Manual.exitStatus p c = some Manual.Status.TP_HIT) := by
  refine ⟨fun t p h => ?_, fun t p h => ?_, fun t p h1 h2 => ?_,
    fun p c h => ?_, fun p c h => ?_, fun p c h1 h2 => ?_⟩ <;>
    · first
      | (simp only [Auto.positionAction] at *; split_ifs at * <;> simp_all [not_le])
      | (simp only [Manual.exitStatus] at *; split_ifs at * <;> simp_all [not_le])

/-- Witness for C3 at an adversarial straddling position
(stop-loss 110 above take-profit 90, price 100 between them). -/
theorem C3_exit_priority_witness :
    Auto.positionAction
        { symbol := "SOL", price := 100, change24h := 0, rsi := 50
          signal := Signal.HOLD }
        { id := 1, symbol := "SOL", entryPrice := 100, currentPrice := 100
          quantity := 1, valueEUR := 100, pnl := 0, pnlPercent := 0
          stopLoss := 110, takeProfit := 90 } = some Auto.Reason.SL ∧
    ¬ Auto.positionAction
        { symbol := "SOL", price := 100, change24h := 0, rsi := 50
          signal := Signal.HOLD }
        { id := 1, symbol := "SOL", entryPrice := 100, currentPrice := 100
          quantity := 1, valueEUR := 100, pnl := 0, pnlPercent := 0
          stopLoss := 110, takeProfit := 90 } = some Auto.Reason.TP ∧
    Manual.exitStatus
        { id := 1, symbol := "SOL", entryPrice := 100, quantity := 1
          valueEUR := 92, stopLoss := 110, takeProfit := 90 } 100 =
      some Manual.Status.SL_HIT :=
  ⟨C3_exit_priority.1 _ _ (by decide),
   C3_exit_priority.2.2.1 _ _ (by decide) (by decide),
   C3_exit_priority.2.2.2.1 _ _ (by decide)⟩

/-- C4: in the autonomous variant, a position not already taken out by
the stop-loss or take-profit checks closes with reason SIGNAL iff its
token's signal is SELL and its unrealized P&L
`(currentPrice − entryPrice) × quantity` is strictly positive; and in
every reachable state, every SIGNAL-reason trade on record carries
strictly positive realized P&L (a non-profitable position is never
closed by signal). -/
theorem C4_signal_close :
    (∀ (t : Auto.Token) (p : Auto.Position),
      ¬ t.price ≤ p.stopLoss → ¬ p.takeProfit ≤ t.price →
      (Auto.positionAction t p = some Auto.Reason.SIGNAL ↔
        t.signal = Signal.SELL ∧
          0 < (t.price - p.entryPrice) * p.quantity)) ∧
    (∀ s, Auto.Reachable s → Auto.TradesOk s.trades) := by
  constructor
  · intro t p h1 h2
    simp only [Auto.positionAction]
    rw [if_neg h1, if_neg h2]
    split_ifs with h3 <;> simp_all
  · intro s hs
    exact (Auto.reachable_inv s hs).2

/-- Witness for C4: a SELL token at 104 against a position entered at
100 (stop-loss 97, take-profit 108), and the initial state's empty
trade history. -/
theorem C4_signal_close_witness :
    (Auto.positionAction Auto.sellToken Auto.exPos = some Auto.Reason.SIGNAL ↔
      Auto.sellToken.signal = Signal.SELL ∧
        0 < (Auto.sellToken.price - Auto.exPos.entryPrice) * Auto.exPos.quantity) ∧
    Auto.TradesOk Auto.initState.trades :=
  ⟨C4_signal_close.1 Auto.sellToken Auto.exPos (by decide) (by decide),
   C4_signal_close.2 Auto.initState Auto.Reachable.init⟩

/-- C5: every close credits the cash balance with exactly the
position's allocated value plus its realized P&L — autonomous:
`valueEUR + (exit − entry)·quantity`; manual (both the tick close and
the user close): `valueEUR + (exit − entry)·quantity·EUR_RATE` — and
the autonomous trade record carries WIN exactly when that P&L is ≥ 0
and LOSS otherwise. -/
theorem C5_conservation :
    (∀ (s : Auto.BotState) (pos : Auto.Position) (exitPrice : ℚ)
       (r : Auto.Reason),
      (Auto.closeTrade pos exitPrice r s).balance =
        s.balance + pos.valueEUR +
          (exitPrice - pos.entryPrice) * pos.quantity) ∧
    (∀ (s : Auto.BotState) (pos : Auto.Position) (exitPrice : ℚ)
       (r : Auto.Reason),
      ∃ tr, (Auto.closeTrade pos exitPrice r s).trades = tr :: s.trades ∧
        tr.pnl = (exitPrice - pos.entryPrice) * pos.quantity ∧
        tr.result = (if 0 ≤ tr.pnl then Auto.TradeResult.WIN
                     else Auto.TradeResult.LOSS)) ∧
    (∀ (tokens : List Manual.Token) (acc : Manual.CheckAcc)
       (pos : Manual.Position) (t : Manual.Token) (st : Manual.Status),
      tokens.find? (fun tk => tk.symbol = pos.symbol) = some t →
      Manual.exitStatus pos t.price = some st →
      (Manual.checkOne tokens acc pos).balance =
        acc.balance + pos.valueEUR +
          (t.price - pos.entryPrice) * pos.quantity * Manual.EUR_RATE) ∧
    (∀ (tokens : List Manual.Token) (s : Manual.HState) (posId : ℕ)
       (pos : Manual.Position),
      s.positions.find? (fun p => p.id = posId) = some pos →
      (Manual.closePosition tokens posId s).balance =
        s.balance + pos.valueEUR +
          (Manual.closePriceFor tokens pos - pos.entryPrice) *
            pos.quantity * Manual.EUR_RATE) := by
  refine ⟨?_, ?_, ?_, ?_⟩
  · intro s pos exitPrice r
    exact (Auto.closeTrade_spec pos exitPrice r s).1
  · intro s pos exitPrice r
    exact ⟨_, (Auto.closeTrade_spec pos exitPrice r s).2.2, rfl, rfl⟩
  · intro tokens acc pos t st hf he
    simp only [Manual.checkOne, hf, he]
  · intro tokens s posId pos hf
    simp only [Manual.closePosition, hf]

/-- Witness for C5's hypothesis-bearing manual conjuncts: a stop-loss
tick close at price 97 and a user close of the position with id 1. -/
theorem C5_conservation_witness :
    (Manual.checkOne [{ symbol := "SOL", price := 97, change24h := 0 }]
        { stillOpen := [], toClose := [], balance := 900 }
        Manual.exPos).balance =
      900 + Manual.exPos.valueEUR +
        ((97:ℚ) - Manual.exPos.entryPrice) * Manual.exPos.quantity *
          Manual.EUR_RATE ∧
    (Manual.closePosition Manual.exTokens 1 Manual.exState).balance =
      Manual.exState.balance + Manual.exPos.valueEUR +
        (Manual.closePriceFor Manual.exTokens Manual.exPos -
          Manual.exPos.entryPrice) * Manual.exPos.quantity *
          Manual.EUR_RATE :=
  ⟨C5_conservation.2.2.1 [{ symbol := "SOL", price := 97, change24h := 0 }]
      { stillOpen := [], toClose := [], balance := 900 }
      Manual.exPos { symbol := "SOL", price := 97, change24h := 0 }
      Manual.Status.SL_HIT (by decide) (by decide),
   C5_conservation.2.2.2 Manual.exTokens Manual.exState 1 Manual.exPos
      (by decide)⟩

/-- C6 fails as stated in its sizing mechanism: within one autonomous
tick every open is sized against the stale tick-entry balance, not the
balance available before the debit is applied.  From the initial €1000,
a snapshot in which two of the six configured symbols signal BUY debits
150 twice (tick balance 700), whereas sizing the second debit against
the then-available balance 850 would debit `min(0.15·850, 850−10) =
127.5` and leave 722.5. -/
theorem C6_counterexample :
    Auto.ReachableCfg (Auto.tick 1 Auto.twoBuyTokens Auto.initState) ∧
    (Auto.tick 1 Auto.twoBuyTokens Auto.initState).balance = 700 ∧
    (700 : ℚ) ≠ Auto.INITIAL_BALANCE - Auto.tradeValueOf Auto.INITIAL_BALANCE -
      Auto.tradeValueOf
        (Auto.INITIAL_BALANCE - Auto.tradeValueOf Auto.INITIAL_BALANCE) := by
  have hps : Auto.processSignals 1 Auto.twoBuyTokens Auto.initState =
      { balance := 700, positions := [Auto.cexPosSOL, Auto.cexPosBONK]
        trades := [] } := by
    have hH : ¬ (Signal.HOLD = Signal.BUY) := by decide
    norm_num [Auto.processSignals, Auto.signalStep, Auto.openPositionFrom,
      Auto.tradeValueOf, Auto.POSITION_SIZE, Auto.MAX_POSITIONS,
      Auto.INITIAL_BALANCE, Auto.STOP_LOSS, Auto.TAKE_PROFIT, Auto.initState,
      Auto.twoBuyTokens, Auto.cexPosSOL, Auto.cexPosBONK, List.foldl, min_def,
      hH]
  refine ⟨?_, ?_, ?_⟩
  · exact Auto.ReachableCfg.tick _ 1 _ Auto.ReachableCfg.init
      (by decide) (by decide)
  · show (Auto.checkPositions Auto.twoBuyTokens
      (Auto.processSignals 1 Auto.twoBuyTokens Auto.initState)).balance = 700
    rw [hps, Auto.checkPositions_balance_of_none]
    intro pos hpos t hf
    have hcases : pos = Auto.cexPosSOL ∨ pos = Auto.cexPosBONK := by
      simpa using hpos
    rcases hcases with rfl | rfl <;>
      · simp [Auto.twoBuyTokens, Auto.cexPosSOL, Auto.cexPosBONK] at hf
        rw [← hf]
        norm_num [Auto.positionAction, Auto.cexPosSOL, Auto.cexPosBONK]
  · norm_num [Auto.tradeValueOf, Auto.POSITION_SIZE, Auto.INITIAL_BALANCE,
      min_def]

/-- C6 amended: the balance stays non-negative at every observation
point of either variant, but through a different autonomous mechanism
than claimed: all opens within one tick are guarded by and sized
against the stale tick-entry balance (each debiting
`min(0.15·b, b−10)` of the tick-entry `b`, rejected below €20, not
re-sized after earlier same-tick debits), and non-negativity holds
because a snapshot carries exactly the six configured symbols, so one
tick debits at most `6 × 15% = 90%` of the tick-entry balance.  The
manual variant is as claimed: each debit is `min(100, 0.1·balance)` of
the current balance, rejected below €10, and every close credits a
non-negative amount. -/
theorem C6_amended :
    (∀ s, Auto.ReachableCfg s → 0 ≤ s.balance) ∧
    (∀ s, Manual.Reachable s → 0 ≤ s.balance) :=
  ⟨fun s h => (Auto.reachableCfg_inv s h).1,
   fun s h => (Manual.mReachable_inv s h).1⟩

/-- Witness for C6's amended statement at the initial states. -/
theorem C6_amended_witness :
    0 ≤ Auto.initState.balance ∧ 0 ≤ Manual.initState.balance :=
  ⟨C6_amended.1 Auto.initState Auto.ReachableCfg.init,
   C6_amended.2 Manual.initState Manual.Reachable.init⟩

/-- C7 as stated is false on the manual variant: `executeTrade` itself
performs no duplicate-position check, so invoked on a symbol that
already has an open position (here SOL, quoted at 100, with €900 cash)
it appends a second open position for that symbol. -/
theorem C7_counterexample :
    ((Manual.executeTrade 2 Manual.exTokens "SOL" Manual.exState).positions.map
      (fun p => p.symbol)) = ["SOL", "SOL"] := by
  have h1 : Manual.exTokens.find? (fun tk => tk.symbol = "SOL") =
      some { symbol := "SOL", price := 100, change24h := 0 } := by decide
  simp only [Manual.executeTrade, h1]
  norm_num [Manual.exState, Manual.exPos]

/-- C7 amended: at most one open position per symbol holds in the
autonomous variant for every state reachable with the snapshots
`fetchPrices` actually produces (one token per configured symbol) —
within one tick the stale hasPosition check reads the tick-entry open
set and cannot block a duplicate token symbol, but the snapshot never
carries one, and across ticks the tick-entry check blocks re-opens; the
manual variant maintains the same invariant for every state reachable
through the page's UI, whose market buttons invoke
`executeTrade(symbol)` only when the symbol has no open position
(`!hasPosition && executeTrade(...)`) — the check lives at the call
site, not inside `executeTrade`. -/
theorem C7_amended :
    (∀ s, Auto.ReachableCfg s →
      s.positions.Pairwise (fun a b => a.symbol ≠ b.symbol)) ∧
    (∀ s, Manual.Reachable s →
      s.positions.Pairwise (fun a b => a.symbol ≠ b.symbol)) :=
  ⟨fun s h => (Auto.reachableCfg_inv s h).2.2.1,
   fun s h => (Manual.mReachable_inv s h).2.2⟩

/-- Witness for C7's amended invariant at the initial states. -/
theorem C7_amended_witness :
    Auto.initState.positions.Pairwise (fun a b => a.symbol ≠ b.symbol) ∧
    Manual.initState.positions.Pairwise (fun a b => a.symbol ≠ b.symbol) :=
  ⟨C7_amended.1 Auto.initState Auto.ReachableCfg.init,
   C7_amended.2 Manual.initState Manual.Reachable.init⟩

/-- C8: whenever the autonomous sizing
`min(balance × 0.15, balance − 10)` is accepted (not below €20), it
equals exactly `balance × 0.15` — no fixed ceiling binds — and the
accepted open debits exactly that amount and records it as the
position's allocated value; a size below €20 makes `openPosition` a
no-op, and a full book (`MAX_POSITIONS = 4` open positions) makes
`processSignals` a no-op. -/
theorem C8_sizing :
    (∀ b : ℚ, ¬ Auto.tradeValueOf b < 20 →
      Auto.tradeValueOf b = b * Auto.POSITION_SIZE) ∧
    (∀ (nowId : ℕ) (token : Auto.Token) (s : Auto.BotState),
      ¬ Auto.tradeValueOf s.balance < 20 →
      (Auto.openPosition nowId token s).balance =
        s.balance - s.balance * Auto.POSITION_SIZE ∧
      ∃ p, (Auto.openPosition nowId token s).positions =
          s.positions ++ [p] ∧
        p.valueEUR = s.balance * Auto.POSITION_SIZE) ∧
    (∀ (nowId : ℕ) (token : Auto.Token) (s : Auto.BotState),
      Auto.tradeValueOf s.balance < 20 →
      Auto.openPosition nowId token s = s) ∧
    (∀ (nowId : ℕ) (tokens : List Auto.Token) (s : Auto.BotState),
      Auto.MAX_POSITIONS ≤ s.positions.length →
      Auto.processSignals nowId tokens s = s) := by
  refine ⟨?_, ?_, ?_, ?_⟩
  · intro b h
    exact (Auto.tradeValueOf_accept b h).1
  · intro nowId token s h
    rw [Auto.openPosition_spec nowId token s h]
    refine ⟨?_, Auto.newPosition nowId token s.balance, rfl, ?_⟩
    · dsimp only
      rw [(Auto.tradeValueOf_accept s.balance h).1]
    · simp only [Auto.newPosition]
      exact (Auto.tradeValueOf_accept s.balance h).1
  · intro nowId token s h
    exact Auto.openPosition_reject nowId token s h
  · intro nowId tokens s hlen
    have h4 : Auto.MAX_POSITIONS = 4 := rfl
    unfold Auto.processSignals
    induction tokens with
    | nil => rfl
    | cons token rest ih =>
      rw [List.foldl_cons]
      have hstep : Auto.signalStep nowId s s token = s := by
        unfold Auto.signalStep
        split_ifs with hc hg
        · exact absurd hg.2.1 (by omega)
        · rfl
        · rfl
      rw [hstep]
      exact ih

/-- Witness for C8: at €1000 the accepted size is exactly 150; at €30
the computed size `min(4.5, 20) = 4.5` is rejected; a four-position
book freezes `processSignals`. -/
theorem C8_sizing_witness :
    Auto.tradeValueOf 1000 = 1000 * Auto.POSITION_SIZE ∧
    Auto.openPosition 7 Auto.sellToken
        { balance := 30, positions := [], trades := [] } =
      { balance := 30, positions := [], trades := [] } ∧
    Auto.processSignals 7 [Auto.sellToken]
        { balance := 900,
          positions := [Auto.exPos, Auto.exPos, Auto.exPos, Auto.exPos],
          trades := [] } =
      { balance := 900,
        positions := [Auto.exPos, Auto.exPos, Auto.exPos, Auto.exPos],
        trades := [] } :=
  ⟨C8_sizing.1 1000 (by norm_num [Auto.tradeValueOf, Auto.POSITION_SIZE]),
   C8_sizing.2.2.1 7 Auto.sellToken _
     (by norm_num [Auto.tradeValueOf, Auto.POSITION_SIZE]),
   C8_sizing.2.2.2 7 [Auto.sellToken] _ (by decide)⟩

/-- C9 fails as stated: with an open position (entry 100, stop-loss 97)
on a symbol whose price comes back 0 that tick, the position is NOT
left unaffected apart from its mark — the zero price sits below the
stop-loss, so `checkPositions` closes it with reason SL at exit
price 0. -/
theorem C9_counterexample :
    (Auto.checkPositions Auto.zeroTokens Auto.exState).positions = [] ∧
    (Auto.checkPositions Auto.zeroTokens Auto.exState).trades.map
      (fun tr => (tr.reason, tr.exitPrice)) = [(Auto.Reason.SL, 0)] := by
  decide

/-- C9 amended: a symbol with a missing or zero price still cannot be
newly traded that tick — the autonomous open path requires a BUY signal
with a strictly positive price, and the manual `executeTrade` rejects a
zero price — and the tick completes; but an existing open position on
such a symbol is not merely re-marked: a zero price lies at or below
its (positive) stop-loss, so the per-position check closes it with
reason SL at exit price 0. -/
theorem C9_amended :
    (∀ (nowId : ℕ) (tokens : List Auto.Token) (s : Auto.BotState)
       (p : Auto.Position),
      p ∈ (Auto.processSignals nowId tokens s).positions →
      p ∈ s.positions ∨
        ∃ t ∈ tokens, t.symbol = p.symbol ∧ 0 < t.price ∧
          t.signal = Signal.BUY) ∧
    (∀ (nowId : ℕ) (tokens : List Manual.Token) (symbol : String)
       (s : Manual.HState) (t : Manual.Token),
      tokens.find? (fun tk => tk.symbol = symbol) = some t → t.price = 0 →
      Manual.executeTrade nowId tokens symbol s = s) ∧
    (∀ (tokens : List Auto.Token) (acc : Auto.BotState)
       (pos : Auto.Position) (t : Auto.Token),
      tokens.find? (fun tk => tk.symbol = pos.symbol) = some t →
      t.price = 0 → 0 < pos.stopLoss →
      Auto.checkOne tokens acc pos =
        Auto.closeTrade pos 0 Auto.Reason.SL acc) := by
  refine ⟨?_, ?_, ?_⟩
  · exact Auto.processSignals_new_positions
  · intro nowId tokens symbol s t hf hz
    simp only [Manual.executeTrade, hf, if_pos hz]
  · intro tokens acc pos t hf hz hsl
    have ha : Auto.positionAction t pos = some Auto.Reason.SL := by
      simp only [Auto.positionAction, hz]
      rw [if_pos hsl.le]
    simp only [Auto.checkOne, hf, ha, hz]

/-- Witness for C9's amended statement on concrete zero-price
snapshots. -/
theorem C9_amended_witness :
    (Auto.exPos ∈ Auto.exState.positions ∨
      ∃ t ∈ Auto.zeroTokens, t.symbol = Auto.exPos.symbol ∧
        0 < t.price ∧ t.signal = Signal.BUY) ∧
    Manual.executeTrade 3 Manual.zeroTokens "SOL" Manual.exState =
      Manual.exState ∧
    Auto.checkOne Auto.zeroTokens Auto.exState Auto.exPos =
      Auto.closeTrade Auto.exPos 0 Auto.Reason.SL Auto.exState :=
  ⟨C9_amended.1 3 Auto.zeroTokens Auto.exState Auto.exPos (by decide),
   C9_amended.2.1 3 Manual.zeroTokens "SOL" Manual.exState
     { symbol := "SOL", price := 0, change24h := 0 } (by decide) rfl,
   C9_amended.2.2 Auto.zeroTokens Auto.exState Auto.exPos
     { symbol := "SOL", price := 0, change24h := 0, rsi := 50,
       signal := Signal.HOLD } (by decide) rfl (by decide)⟩

/-- C10: the manual `closePosition` on a position whose symbol has no
current token quote, or a zero price, closes at the entry price:
realized P&L exactly 0, the cash balance credited exactly the allocated
value, and the recorded trade's closePrice equal to the entry price. -/
theorem C10_close_fallback :
    ∀ (tokens : List Manual.Token) (s : Manual.HState) (posId : ℕ)
      (pos : Manual.Position),
      s.positions.find? (fun p => p.id = posId) = some pos →
      (tokens.find? (fun tk => tk.symbol = pos.symbol) = none ∨
        ∃ t, tokens.find? (fun tk => tk.symbol = pos.symbol) = some t ∧
          t.price = 0) →
      (Manual.closePosition tokens posId s).balance =
        s.balance + pos.valueEUR ∧
      ∃ tr, (Manual.closePosition tokens posId s).trades = tr :: s.trades ∧
        tr.closePrice = some pos.entryPrice ∧ tr.closePnL = some 0 := by
  intro tokens s posId pos hf hz
  have hcp : Manual.closePriceFor tokens pos = pos.entryPrice := by
    rcases hz with hn | ⟨t, ht, htz⟩
    · simp only [Manual.closePriceFor, hn]
    · simp only [Manual.closePriceFor, ht, if_pos htz]
  constructor
  · simp only [Manual.closePosition, hf, hcp]
    ring
  · refine ⟨{ toPosition := pos, status := Manual.Status.CLOSED, closePrice := some pos.entryPrice, closePnL := some 0 }, ?_, rfl, rfl⟩
    simp only [Manual.closePosition, hf, hcp]
    norm_num

/-- Witness for C10: closing position 1 while SOL is quoted at the
falsy price 0. -/
theorem C10_close_fallback_witness :
    (Manual.closePosition Manual.zeroTokens 1 Manual.exState).balance =
      Manual.exState.balance + Manual.exPos.valueEUR ∧
    ∃ tr, (Manual.closePosition Manual.zeroTokens 1 Manual.exState).trades =
        tr :: Manual.exState.trades ∧
      tr.closePrice = some Manual.exPos.entryPrice ∧ tr.closePnL = some 0 :=
  C10_close_fallback Manual.zeroTokens Manual.exState 1 Manual.exPos
    (by decide)
    (Or.inr ⟨{ symbol := "SOL", price := 0, change24h := 0 }, by decide, rfl⟩)

end SolTrader
